import Mathlib

set_option autoImplicit false

/-!
Shallow embedding of the routing layer of the ceresdb client
(`src/router.rs`).  The `DashMap` endpoint cache is modelled as an
association list with first-match lookup; `HashMap` iteration order
(used to build the fetch request's table list) is modelled
deterministically by insertion order, and the set-level properties of
the request are stated order-independently.  The asynchronous
`RpcClient::route` collaborator is a parameter (`RouteFetcher`); the
call trace of the single fetch a `route` call issues is returned
explicitly so that "number of fetch calls" is statable.  The `assert!`
on `ctx.database` in the source is modelled as the `invalidContext`
error, and `Error::Unknown` for an unrequested response table as
`unexpectedRouteEntry`.
-/

namespace CeresRouter

/-- An endpoint: host address and port (`model/route.rs` collaborator type). -/
structure Endpoint where
  addr : String
  port : Nat
deriving DecidableEq, Repr

/-- The rpc context: optional database name and optional timeout
(`rpc_client::RpcContext`). -/
structure RpcContext where
  database : Option String
  timeout : Option Nat
deriving DecidableEq, Repr

/-- Error conditions a `route` call can end in.  `invalidContext` models the
`assert!(ctx.database.is_some())` failure, `unexpectedRouteEntry` models
`Error::Unknown` raised for a response table absent from the miss map, and
`transport` models a failing remote fetch. -/
inductive RouteError where
  | invalidContext
  | unexpectedRouteEntry (table : String)
  | transport (msg : String)
deriving DecidableEq, Repr

/-- One entry of a fetch response: a table name and an optional endpoint
(`ceresdbproto` route message). -/
structure RouteEntry where
  table : String
  endpoint : Option Endpoint
deriving DecidableEq, Repr

/-- A fetch request: the database scope and the (distinct) tables to route
(`ceresdbproto::storage::RouteRequest`). -/
structure RouteRequest where
  database : String
  tables : List String
deriving DecidableEq, Repr

/-- The endpoint cache (`DashMap<String, Endpoint>`), as an association list
with first-match lookup. -/
abbrev Cache : Type := List (String × Endpoint)

/-- Cache lookup (`DashMap::get`). -/
def cacheGet (c : Cache) (t : String) : Option Endpoint :=
  match c with
  | [] => none
  | (k, v) :: rest => if k = t then some v else cacheGet rest t

/-- Cache insertion, overwriting any existing entry (`DashMap::insert`). -/
def cacheInsert (c : Cache) (t : String) (e : Endpoint) : Cache :=
  match c with
  | [] => [(t, e)]
  | (k, v) :: rest => if k = t then (t, e) :: rest else (k, v) :: cacheInsert rest t e

/-- Cache removal (`DashMap::remove`). -/
def cacheRemove (c : Cache) (t : String) : Cache :=
  c.filter (fun p => p.1 != t)

/-- The miss map built by `route` (`HashMap<String, usize>`): association list
with overwriting insert, keyed by table name, valued by output index. -/
def mapInsert (m : List (String × Nat)) (k : String) (v : Nat) : List (String × Nat) :=
  match m with
  | [] => [(k, v)]
  | (k0, v0) :: rest => if k0 = k then (k, v) :: rest else (k0, v0) :: mapInsert rest k v

/-- Miss-map lookup (`HashMap::get`). -/
def mapGet (m : List (String × Nat)) (k : String) : Option Nat :=
  match m with
  | [] => none
  | (k0, v0) :: rest => if k0 = k then some v0 else mapGet rest k

/-- The remote routing collaborator (`RpcClient::route`), as a function from
the request to a response or a failure. -/
abbrev RouteFetcher : Type := RouteRequest → Except RouteError (List RouteEntry)

/-- The first, cache-probing phase of `route`: one slot per input table,
initialized to the default endpoint and overwritten by a cache hit
(lines 55-64 of `router.rs`). -/
def fillFromCache (default_endpoint : Endpoint) (cache : Cache)
    (tables : List String) : List (Option Endpoint) :=
  tables.map fun t =>
    match cacheGet cache t with
    | some e => some e
    | none => some default_endpoint

/-- The miss-collection loop of `route`: walk the tables with their indices
and record `(table, idx)` in the miss map on every cache miss
(lines 58-72 of `router.rs`). -/
def buildMissesGo (cache : Cache) : List String → Nat → List (String × Nat) → List (String × Nat)
  | [], _, m => m
  | t :: rest, idx, m =>
    match cacheGet cache t with
    | some _ => buildMissesGo cache rest (idx + 1) m
    | none => buildMissesGo cache rest (idx + 1) (mapInsert m t idx)

/-- The miss map of a `route` call, starting from index 0 and an empty map. -/
def buildMisses (cache : Cache) (tables : List String) : List (String × Nat) :=
  buildMissesGo cache tables 0 []

/-- The response-processing loop of `route` (lines 86-99 of `router.rs`):
entries without an endpoint are skipped; an entry whose table is not in the
miss map aborts with `unexpectedRouteEntry`; otherwise the endpoint is written
into the cache and into the recorded output slot.  The cache is returned even
on the error exit, since the source mutates it in place. -/
def processRoutes (misses : List (String × Nat)) :
    List RouteEntry → Cache → List (Option Endpoint) →
      Cache × Except RouteError (List (Option Endpoint))
  | [], cache, targets => (cache, Except.ok targets)
  | r :: rest, cache, targets =>
    match r.endpoint with
    | none => processRoutes misses rest cache targets
    | some ep =>
      match mapGet misses r.table with
      | none => (cache, Except.error (RouteError.unexpectedRouteEntry r.table))
      | some idx =>
          processRoutes misses rest (cacheInsert cache r.table ep)
            (targets.set idx (some ep))

/-- `RouterImpl::route` (lines 52-102 of `router.rs`).  Returns the cache
after the call, the list of fetch requests issued (the source always issues
exactly one once the context check passes), and the result.  Note the source
has no early return on an empty miss map: the fetch is issued with an empty
table list in that case. -/
def route (default_endpoint : Endpoint) (fetcher : RouteFetcher) (cache : Cache)
    (tables : List String) (ctx : RpcContext) :
    Cache × List RouteRequest × Except RouteError (List (Option Endpoint)) :=
  match ctx.database with
  | none => (cache, [], Except.error RouteError.invalidContext)
  | some db =>
    let target_endpoints := fillFromCache default_endpoint cache tables
    let misses := buildMisses cache tables
    let req : RouteRequest := ⟨db, misses.map Prod.fst⟩
    match fetcher req with
    | Except.error e => (cache, [req], Except.error e)
    | Except.ok routes =>
      let pr := processRoutes misses routes cache target_endpoints
      (pr.1, [req], pr.2)

/-- `RouterImpl::evict` (lines 104-108 of `router.rs`): remove every listed
table from the cache. -/
def evict (cache : Cache) (tables : List String) : Cache :=
  tables.foldl cacheRemove cache

/-! ### Association-list lemmas for the cache and the miss map -/

theorem cacheGet_cacheInsert_self (c : Cache) (t : String) (e : Endpoint) :
    cacheGet (cacheInsert c t e) t = some e := by
  induction c with
  | nil => simp [cacheInsert, cacheGet]
  | cons p rest ih =>
    obtain ⟨k, v⟩ := p
    by_cases h : k = t
    · simp [cacheInsert, cacheGet, h]
    · simp [cacheInsert, cacheGet, h, ih]

theorem cacheGet_cacheInsert_ne (c : Cache) (t t' : String) (e : Endpoint)
    (h : t' ≠ t) : cacheGet (cacheInsert c t e) t' = cacheGet c t' := by
  induction c with
  | nil => simp [cacheInsert, cacheGet, Ne.symm h]
  | cons p rest ih =>
    obtain ⟨k, v⟩ := p
    by_cases hk : k = t
    · subst hk
      simp [cacheInsert, cacheGet, Ne.symm h]
    · by_cases hk' : k = t'
      · simp [cacheInsert, cacheGet, hk, hk', h]
      · simp [cacheInsert, cacheGet, hk, hk', ih]

theorem cacheGet_cacheRemove (c : Cache) (t t' : String) :
    cacheGet (cacheRemove c t') t = if t = t' then none else cacheGet c t := by
  induction c with
  | nil => simp [cacheRemove, cacheGet]
  | cons p rest ih =>
    obtain ⟨k, v⟩ := p
    by_cases hk : k = t'
    · have h1 : cacheRemove ((k, v) :: rest) t' = cacheRemove rest t' := by
        simp [cacheRemove, List.filter_cons, hk]
      rw [h1, ih]
      by_cases ht : t = t'
      · simp [ht]
      · have hkt : k ≠ t := by rw [hk]; exact Ne.symm ht
        simp [ht, cacheGet, hkt]
    · have h1 : cacheRemove ((k, v) :: rest) t' = (k, v) :: cacheRemove rest t' := by
        simp [cacheRemove, List.filter_cons, hk]
      rw [h1]
      by_cases hkt : k = t
      · subst hkt
        simp [cacheGet, hk]
      · simp [cacheGet, hkt, ih]

theorem mapGet_mapInsert_self (m : List (String × Nat)) (k : String) (v : Nat) :
    mapGet (mapInsert m k v) k = some v := by
  induction m with
  | nil => simp [mapInsert, mapGet]
  | cons p rest ih =>
    obtain ⟨k0, v0⟩ := p
    by_cases h : k0 = k
    · simp [mapInsert, mapGet, h]
    · simp [mapInsert, mapGet, h, ih]

theorem mapGet_mapInsert_ne (m : List (String × Nat)) (k k' : String) (v : Nat)
    (h : k' ≠ k) : mapGet (mapInsert m k v) k' = mapGet m k' := by
  induction m with
  | nil => simp [mapInsert, mapGet, Ne.symm h]
  | cons p rest ih =>
    obtain ⟨k0, v0⟩ := p
    by_cases hk : k0 = k
    · subst hk
      simp [mapInsert, mapGet, Ne.symm h]
    · by_cases hk' : k0 = k'
      · simp [mapInsert, mapGet, hk, hk', h]
      · simp [mapInsert, mapGet, hk, hk', ih]

theorem mem_keys_mapInsert (m : List (String × Nat)) (k : String) (v : Nat)
    (a : String) :
    a ∈ (mapInsert m k v).map Prod.fst ↔ a ∈ m.map Prod.fst ∨ a = k := by
  induction m with
  | nil => simp [mapInsert]
  | cons p rest ih =>
    obtain ⟨k0, v0⟩ := p
    by_cases h : k0 = k
    · subst h
      simp [mapInsert]
      tauto
    · simp [mapInsert, h, ih]
      tauto

theorem nodup_keys_mapInsert (m : List (String × Nat)) (k : String) (v : Nat)
    (h : (m.map Prod.fst).Nodup) : ((mapInsert m k v).map Prod.fst).Nodup := by
  induction m with
  | nil => simp [mapInsert]
  | cons p rest ih =>
    obtain ⟨k0, v0⟩ := p
    simp only [List.map_cons, List.nodup_cons] at h
    by_cases hk : k0 = k
    · subst hk
      simpa [mapInsert] using h
    · simp only [mapInsert, if_neg hk, List.map_cons, List.nodup_cons]
      constructor
      · intro hm
        rcases (mem_keys_mapInsert rest k v k0).mp hm with hm' | hm'
        · exact h.1 hm'
        · exact hk hm'
      · exact ih h.2

theorem mapGet_eq_none_iff (m : List (String × Nat)) (k : String) :
    mapGet m k = none ↔ k ∉ m.map Prod.fst := by
  induction m with
  | nil => simp [mapGet]
  | cons p rest ih =>
    obtain ⟨k0, v0⟩ := p
    by_cases h : k0 = k
    · simp [mapGet, h]
    · simp [mapGet, h, ih, Ne.symm h]

/-! ### The last occurrence of a table name in the input sequence -/

/-- Index of the last occurrence of `t` in `l` (meaningful when `t ∈ l`);
this is the index the miss map records for a table, since a `HashMap` insert
overwrites the value stored by an earlier iteration. -/
def lastOcc : List String → String → Nat
  | [], _ => 0
  | _ :: xs, t => if t ∈ xs then lastOcc xs t + 1 else 0

theorem lastOcc_get (l : List String) (t : String) (h : t ∈ l) :
    l.get? (lastOcc l t) = some t := by
  induction l with
  | nil => cases h
  | cons x xs ih =>
    by_cases hx : t ∈ xs
    · simp only [lastOcc, hx, if_true, List.get?_cons_succ]
      exact ih hx
    · have hxt : t = x := by
        rcases List.mem_cons.mp h with h1 | h2
        · exact h1
        · exact absurd h2 hx
      subst hxt
      simp [lastOcc, hx]

theorem le_lastOcc (l : List String) (t : String) (j : Nat)
    (h : l.get? j = some t) : j ≤ lastOcc l t := by
  induction l generalizing j with
  | nil => simp at h
  | cons x xs ih =>
    cases j with
    | zero => exact Nat.zero_le _
    | succ j =>
      have hj : xs.get? j = some t := by simpa using h
      have hmem : t ∈ xs := List.get?_mem hj
      simp only [lastOcc, hmem, if_true]
      exact Nat.succ_le_succ (ih j hj)

/-! ### Closed form of the miss map -/

theorem mapGet_buildMissesGo (cache : Cache) (t : String) :
    ∀ (rest : List String) (idx : Nat) (m : List (String × Nat)),
      mapGet (buildMissesGo cache rest idx m) t =
        if cacheGet cache t = none ∧ t ∈ rest then some (idx + lastOcc rest t)
        else mapGet m t := by
  intro rest
  induction rest with
  | nil =>
    intro idx m
    simp [buildMissesGo]
  | cons x xs ih =>
    intro idx m
    simp only [buildMissesGo]
    cases hx : cacheGet cache x with
    | some e =>
      rw [ih]
      by_cases hc : cacheGet cache t = none
      · by_cases ht : t = x
        · subst ht
          rw [hx] at hc
          cases hc
        · by_cases hm : t ∈ xs
          · simp only [hc, hm, ht, lastOcc, true_and, if_true, List.mem_cons,
              false_or, Option.some.injEq]
            omega
          · simp [hc, hm, ht, lastOcc]
      · simp [hc]
    | none =>
      rw [ih]
      by_cases hc : cacheGet cache t = none
      · by_cases ht : t = x
        · subst ht
          by_cases hm : t ∈ xs
          · simp only [hc, hm, lastOcc, true_and, if_true, List.mem_cons,
              true_or, Option.some.injEq]
            omega
          · simp [hc, hm, lastOcc, mapGet_mapInsert_self]
        · by_cases hm : t ∈ xs
          · simp only [hc, hm, ht, lastOcc, true_and, if_true, List.mem_cons,
              false_or, Option.some.injEq]
            omega
          · simp [hc, hm, ht, lastOcc, mapGet_mapInsert_ne m x t idx ht]
      · have ht : t ≠ x := fun e => hc (by rw [e]; exact hx)
        simp [hc, mapGet_mapInsert_ne m x t idx ht]

theorem mapGet_buildMisses (cache : Cache) (tables : List String) (t : String) :
    mapGet (buildMisses cache tables) t =
      if cacheGet cache t = none ∧ t ∈ tables then some (lastOcc tables t)
      else none := by
  simpa [buildMisses, mapGet] using mapGet_buildMissesGo cache t tables 0 []

theorem keys_buildMissesGo_nodup (cache : Cache) :
    ∀ (rest : List String) (idx : Nat) (m : List (String × Nat)),
      (m.map Prod.fst).Nodup → ((buildMissesGo cache rest idx m).map Prod.fst).Nodup := by
  intro rest
  induction rest with
  | nil =>
    intro idx m h
    simpa [buildMissesGo] using h
  | cons x xs ih =>
    intro idx m h
    simp only [buildMissesGo]
    cases hx : cacheGet cache x with
    | some e => exact ih _ _ h
    | none => exact ih _ _ (nodup_keys_mapInsert m x idx h)

theorem keys_buildMisses_nodup (cache : Cache) (tables : List String) :
    ((buildMisses cache tables).map Prod.fst).Nodup :=
  keys_buildMissesGo_nodup cache tables 0 [] (by simp)

theorem mem_keys_buildMisses (cache : Cache) (tables : List String) (t : String) :
    t ∈ (buildMisses cache tables).map Prod.fst ↔
      cacheGet cache t = none ∧ t ∈ tables := by
  have h1 : mapGet (buildMisses cache tables) t = none ↔
      ¬(cacheGet cache t = none ∧ t ∈ tables) := by
    rw [mapGet_buildMisses]
    by_cases hc : cacheGet cache t = none ∧ t ∈ tables <;> simp [hc]
  have h2 := mapGet_eq_none_iff (buildMisses cache tables) t
  constructor
  · intro hm
    by_contra hc
    exact h2.mp (h1.mpr hc) hm
  · intro hc
    by_contra hm
    exact h1.mp (h2.mpr hm) hc

/-- The value the miss map records for a table is the index of the LAST
occurrence of that name among the inputs, that position indeed holds the
name, and the name indeed missed the cache. -/
theorem buildMisses_index_spec (cache : Cache) (tables : List String)
    (t : String) (i : Nat) (h : mapGet (buildMisses cache tables) t = some i) :
    cacheGet cache t = none ∧ tables.get? i = some t ∧
      ∀ j, tables.get? j = some t → j ≤ i := by
  rw [mapGet_buildMisses] at h
  by_cases hc : cacheGet cache t = none ∧ t ∈ tables
  · rw [if_pos hc] at h
    obtain ⟨h1, h2⟩ := hc
    have hi : lastOcc tables t = i := by
      injection h
    refine ⟨h1, ?_, ?_⟩
    · rw [← hi]
      exact lastOcc_get tables t h2
    · intro j hj
      rw [← hi]
      exact le_lastOcc tables t j hj
  · rw [if_neg hc] at h
    cases h

/-- Two distinct tables never share a recorded miss index. -/
theorem buildMisses_index_inj (cache : Cache) (tables : List String)
    (t t' : String) (i : Nat) (h : mapGet (buildMisses cache tables) t = some i)
    (h' : mapGet (buildMisses cache tables) t' = some i) : t = t' := by
  have s1 := (buildMisses_index_spec cache tables t i h).2.1
  have s2 := (buildMisses_index_spec cache tables t' i h').2.1
  rw [s1] at s2
  injection s2

/-! ### Properties of the response-processing loop -/

theorem processRoutes_nil (misses : List (String × Nat)) (cache : Cache)
    (targets : List (Option Endpoint)) :
    processRoutes misses [] cache targets = (cache, Except.ok targets) := rfl

theorem processRoutes_cons (misses : List (String × Nat)) (tb : String)
    (ep : Option Endpoint) (rest : List RouteEntry) (cache : Cache)
    (targets : List (Option Endpoint)) :
    processRoutes misses (⟨tb, ep⟩ :: rest) cache targets =
      match ep with
      | none => processRoutes misses rest cache targets
      | some e =>
        match mapGet misses tb with
        | none => (cache, Except.error (RouteError.unexpectedRouteEntry tb))
        | some idx =>
            processRoutes misses rest (cacheInsert cache tb e)
              (targets.set idx (some e)) := rfl

/-- A successful pass over the response preserves the length of the output
sequence and keeps every slot filled. -/
theorem processRoutes_ok_spec (misses : List (String × Nat)) :
    ∀ (routes : List RouteEntry) (cache : Cache)
      (targets : List (Option Endpoint)) (c' : Cache)
      (out : List (Option Endpoint)),
      processRoutes misses routes cache targets = (c', Except.ok out) →
      (∀ o ∈ targets, o.isSome) →
      out.length = targets.length ∧ ∀ o ∈ out, o.isSome := by
  intro routes
  induction routes with
  | nil =>
    intro cache targets c' out h hall
    rw [processRoutes_nil] at h
    obtain ⟨h1, h2⟩ := Prod.mk.injEq .. ▸ h
    cases h2
    exact ⟨rfl, hall⟩
  | cons r rest ih =>
    intro cache targets c' out h hall
    obtain ⟨tb, ep⟩ := r
    rw [processRoutes_cons] at h
    cases ep with
    | none => exact ih cache targets c' out h hall
    | some e =>
      cases hm : mapGet misses tb with
      | none =>
        rw [hm] at h
        simp at h
      | some idx =>
        rw [hm] at h
        have hall' : ∀ o ∈ targets.set idx (some e), o.isSome := by
          intro o ho
          rcases List.mem_or_eq_of_mem_set ho with h1 | h1
          · exact hall o h1
          · rw [h1]; rfl
        have hres := ih _ _ _ _ h hall'
        rw [List.length_set] at hres
        exact hres

/-- Slots that no processed entry targets are left untouched by a successful
pass over the response. -/
theorem processRoutes_ok_get (misses : List (String × Nat)) (j : Nat) :
    ∀ (routes : List RouteEntry) (cache : Cache)
      (targets : List (Option Endpoint)) (c' : Cache)
      (out : List (Option Endpoint)),
      processRoutes misses routes cache targets = (c', Except.ok out) →
      (∀ r ∈ routes, r.endpoint.isSome → mapGet misses r.table ≠ some j) →
      out.get? j = targets.get? j := by
  intro routes
  induction routes with
  | nil =>
    intro cache targets c' out h _
    rw [processRoutes_nil] at h
    obtain ⟨h1, h2⟩ := Prod.mk.injEq .. ▸ h
    cases h2
    rfl
  | cons r rest ih =>
    intro cache targets c' out h hno
    obtain ⟨tb, ep⟩ := r
    rw [processRoutes_cons] at h
    cases ep with
    | none =>
      exact ih cache targets c' out h fun r hr => hno r (List.mem_cons_of_mem _ hr)
    | some e =>
      cases hm : mapGet misses tb with
      | none =>
        rw [hm] at h
        simp at h
      | some idx =>
        rw [hm] at h
        have hidxj : idx ≠ j := by
          intro hh
          exact hno ⟨tb, some e⟩ (List.mem_cons_self _ _) rfl (hh ▸ hm)
        have := ih _ _ _ _ h fun r hr => hno r (List.mem_cons_of_mem _ hr)
        rw [this]
        exact List.get?_set_ne (some e) targets hidxj

/-- The cache entry of a table whose response entries all lack an endpoint is
untouched by the response pass, on both the success and the error exit. -/
theorem processRoutes_cacheGet_frame (misses : List (String × Nat)) (t : String) :
    ∀ (routes : List RouteEntry) (cache : Cache)
      (targets : List (Option Endpoint)),
      (∀ r ∈ routes, r.table = t → r.endpoint = none) →
      cacheGet (processRoutes misses routes cache targets).1 t = cacheGet cache t := by
  intro routes
  induction routes with
  | nil =>
    intro cache targets _
    rfl
  | cons r rest ih =>
    intro cache targets hno
    obtain ⟨tb, ep⟩ := r
    rw [processRoutes_cons]
    cases ep with
    | none =>
      exact ih cache targets fun r hr => hno r (List.mem_cons_of_mem _ hr)
    | some e =>
      have htb : tb ≠ t := by
        intro hh
        cases hno ⟨tb, some e⟩ (List.mem_cons_self _ _) hh
      cases hm : mapGet misses tb with
      | none => rfl
      | some idx =>
        rw [ih _ _ fun r hr => hno r (List.mem_cons_of_mem _ hr)]
        exact cacheGet_cacheInsert_ne cache tb t e (Ne.symm htb)

/-- A response entry that carries an endpoint for a table absent from the
miss map forces the error exit with `unexpectedRouteEntry`. -/
theorem processRoutes_error_of_unexpected (misses : List (String × Nat)) :
    ∀ (routes : List RouteEntry) (cache : Cache)
      (targets : List (Option Endpoint)) (r : RouteEntry),
      r ∈ routes → r.endpoint.isSome → mapGet misses r.table = none →
      ∃ t', mapGet misses t' = none ∧
        (processRoutes misses routes cache targets).2 =
          Except.error (RouteError.unexpectedRouteEntry t') := by
  intro routes
  induction routes with
  | nil =>
    intro cache targets r hr
    cases hr
  | cons r0 rest ih =>
    intro cache targets r hr hsome hnone
    obtain ⟨tb, ep⟩ := r0
    rw [processRoutes_cons]
    cases ep with
    | none =>
      rcases List.mem_cons.mp hr with h1 | h1
      · rw [h1] at hsome
        cases hsome
      · exact ih cache targets r h1 hsome hnone
    | some e =>
      cases hm : mapGet misses tb with
      | none => exact ⟨tb, hm, rfl⟩
      | some idx =>
        rcases List.mem_cons.mp hr with h1 | h1
        · rw [h1] at hnone
          rw [hnone] at hm
          cases hm
        · exact ih _ _ r h1 hsome hnone

/-- Effect of the unique response entry for a missed table: its endpoint ends
up in the cache and in the recorded output slot, whatever else the response
contains. -/
theorem processRoutes_ok_entry (misses : List (String × Nat)) (t : String)
    (E : Endpoint) (idx : Nat) (hidx : mapGet misses t = some idx)
    (hinj : ∀ t', mapGet misses t' = some idx → t' = t) :
    ∀ (routes : List RouteEntry) (cache : Cache)
      (targets : List (Option Endpoint)) (c' : Cache)
      (out : List (Option Endpoint)),
      processRoutes misses routes cache targets = (c', Except.ok out) →
      RouteEntry.mk t (some E) ∈ routes →
      routes.countP (fun r => decide (r.table = t)) = 1 →
      idx < targets.length →
      cacheGet c' t = some E ∧ out.get? idx = some (some E) := by
  intro routes
  induction routes with
  | nil =>
    intro cache targets c' out _ hmem
    cases hmem
  | cons r0 rest ih =>
    intro cache targets c' out h hmem hcount hlt
    obtain ⟨tb, ep⟩ := r0
    rw [processRoutes_cons] at h
    rw [List.countP_cons] at hcount
    cases ep with
    | none =>
      have hmem' : RouteEntry.mk t (some E) ∈ rest := by
        rcases List.mem_cons.mp hmem with h1 | h1
        · cases h1
        · exact h1
      have hpos : 0 < rest.countP (fun r => decide (r.table = t)) :=
        List.countP_pos.mpr ⟨_, hmem', by simp⟩
      have hcount' : rest.countP (fun r => decide (r.table = t)) = 1 := by
        by_cases htb : decide ((RouteEntry.mk tb none).table = t) = true
        · rw [if_pos htb] at hcount
          omega
        · rw [if_neg htb] at hcount
          omega
      exact ih cache targets c' out h hmem' hcount' hlt
    | some e =>
      cases hm : mapGet misses tb with
      | none =>
        rw [hm] at h
        simp at h
      | some i =>
        rw [hm] at h
        have h' : processRoutes misses rest (cacheInsert cache tb e)
            (targets.set i (some e)) = (c', Except.ok out) := h
        by_cases htb : tb = t
        · subst htb
          have hi : i = idx := by
            rw [hidx] at hm
            injection hm with hv
            exact hv.symm
          subst hi
          have hrest0 : rest.countP (fun r => decide (r.table = tb)) = 0 := by
            have hd : decide ((RouteEntry.mk tb (some e)).table = tb) = true := by
              simp
            rw [if_pos hd] at hcount
            omega
          have hnot : ∀ r ∈ rest, r.table ≠ tb := by
            intro r hr
            have := List.countP_eq_zero.mp hrest0 r hr
            simpa using this
          have heE : e = E := by
            rcases List.mem_cons.mp hmem with h1 | h1
            · injection h1 with h1a h1b
              injection h1b with h1c
              exact h1c.symm
            · cases hnot _ h1 rfl
          subst heE
          constructor
          · have hframe := processRoutes_cacheGet_frame misses tb rest
              (cacheInsert cache tb e) (targets.set i (some e))
              (fun r hr hh => absurd hh (hnot r hr))
            rw [h'] at hframe
            rw [hframe]
            exact cacheGet_cacheInsert_self cache tb e
          · have hget := processRoutes_ok_get misses i rest _ _ _ _ h' ?_
            · rw [hget]
              exact List.get?_set_eq_of_lt (some e) hlt
            · intro r hr _ hmr
              exact hnot r hr (hinj r.table hmr)
        · have hmem' : RouteEntry.mk t (some E) ∈ rest := by
            rcases List.mem_cons.mp hmem with h1 | h1
            · injection h1 with h1a _
              exact absurd h1a.symm htb
            · exact h1
          have hcount' : rest.countP (fun r => decide (r.table = t)) = 1 := by
            have hd : ¬(decide ((RouteEntry.mk tb (some e)).table = t) = true) := by
              simpa using htb
            rw [if_neg hd] at hcount
            omega
          have hlt' : idx < (targets.set i (some e)).length := by
            rw [List.length_set]
            exact hlt
          exact ih _ _ c' out h' hmem' hcount' hlt'

/-! ### The cache-probing phase -/

theorem fillFromCache_length (default_endpoint : Endpoint) (cache : Cache)
    (tables : List String) :
    (fillFromCache default_endpoint cache tables).length = tables.length := by
  simp [fillFromCache]

theorem fillFromCache_all_some (default_endpoint : Endpoint) (cache : Cache)
    (tables : List String) :
    ∀ o ∈ fillFromCache default_endpoint cache tables, o.isSome := by
  intro o ho
  simp only [fillFromCache, List.mem_map] at ho
  obtain ⟨t, _, ht⟩ := ho
  cases hc : cacheGet cache t <;> rw [← ht] <;> simp [hc]

theorem fillFromCache_get (default_endpoint : Endpoint) (cache : Cache)
    (tables : List String) (j : Nat) (t : String) (h : tables.get? j = some t) :
    (fillFromCache default_endpoint cache tables).get? j =
      some (match cacheGet cache t with
            | some e => some e
            | none => some default_endpoint) := by
  simp only [fillFromCache, List.get?_map, h, Option.map_some']

/-- Every output slot of a successful pass either still carries its
cache-probe value or was overwritten with an endpoint the response assigned
to the table recorded at that index. -/
theorem processRoutes_ok_get_or (misses : List (String × Nat)) (j : Nat) :
    ∀ (routes : List RouteEntry) (cache : Cache)
      (targets : List (Option Endpoint)) (c' : Cache)
      (out : List (Option Endpoint)),
      processRoutes misses routes cache targets = (c', Except.ok out) →
      out.get? j = targets.get? j ∨
        ∃ e, out.get? j = some (some e) ∧
          ∃ tb, mapGet misses tb = some j ∧ RouteEntry.mk tb (some e) ∈ routes := by
  intro routes
  induction routes with
  | nil =>
    intro cache targets c' out h
    rw [processRoutes_nil] at h
    obtain ⟨h1, h2⟩ := Prod.mk.injEq .. ▸ h
    cases h2
    exact Or.inl rfl
  | cons r rest ih =>
    intro cache targets c' out h
    obtain ⟨tb, ep⟩ := r
    rw [processRoutes_cons] at h
    cases ep with
    | none =>
      rcases ih cache targets c' out h with h1 | ⟨e, he, tb', hm', hmem'⟩
      · exact Or.inl h1
      · exact Or.inr ⟨e, he, tb', hm', List.mem_cons_of_mem _ hmem'⟩
    | some e =>
      cases hm : mapGet misses tb with
      | none =>
        rw [hm] at h
        simp at h
      | some i =>
        rw [hm] at h
        rcases ih _ _ c' out h with h1 | ⟨e', he', tb', hm', hmem'⟩
        · by_cases hij : i = j
          · subst hij
            by_cases hlt : i < targets.length
            · refine Or.inr ⟨e, ?_, tb, hm, List.mem_cons_self _ _⟩
              rw [h1]
              exact List.get?_set_eq_of_lt (some e) hlt
            · refine Or.inl ?_
              rw [h1]
              have hge : targets.length ≤ i := Nat.le_of_not_lt hlt
              rw [List.get?_eq_none.mpr (by rw [List.length_set]; exact hge),
                List.get?_eq_none.mpr hge]
          · refine Or.inl ?_
            rw [h1]
            exact List.get?_set_ne (some e) targets hij
        · exact Or.inr ⟨e', he', tb', hm', List.mem_cons_of_mem _ hmem'⟩

/-! ### Unfolding lemmas for `route` -/

theorem pair_eq_of_snd {α β : Type} (p : α × β) (b : β) (h : p.2 = b) :
    p = (p.1, b) := by
  obtain ⟨x, y⟩ := p
  cases h
  rfl

theorem route_ok (default_endpoint : Endpoint) (fetcher : RouteFetcher)
    (cache : Cache) (tables : List String) (ctx : RpcContext) (db : String)
    (routes : List RouteEntry) (hdb : ctx.database = some db)
    (hf : fetcher ⟨db, (buildMisses cache tables).map Prod.fst⟩ =
      Except.ok routes) :
    route default_endpoint fetcher cache tables ctx =
      ((processRoutes (buildMisses cache tables) routes cache
          (fillFromCache default_endpoint cache tables)).1,
        [⟨db, (buildMisses cache tables).map Prod.fst⟩],
        (processRoutes (buildMisses cache tables) routes cache
          (fillFromCache default_endpoint cache tables)).2) := by
  simp only [route, hdb, hf]

theorem route_error_fetch (default_endpoint : Endpoint) (fetcher : RouteFetcher)
    (cache : Cache) (tables : List String) (ctx : RpcContext) (db : String)
    (err : RouteError) (hdb : ctx.database = some db)
    (hf : fetcher ⟨db, (buildMisses cache tables).map Prod.fst⟩ =
      Except.error err) :
    route default_endpoint fetcher cache tables ctx =
      (cache, [⟨db, (buildMisses cache tables).map Prod.fst⟩],
        Except.error err) := by
  simp only [route, hdb, hf]

/-! ### Concrete data for the closed evaluations -/

def epA : Endpoint := ⟨"192.168.0.1", 11⟩

def epB : Endpoint := ⟨"192.168.0.2", 12⟩

def epD : Endpoint := ⟨"192.168.0.5", 15⟩

def ctxDb : RpcContext := ⟨some "db", none⟩

def ctxNoDb : RpcContext := ⟨none, none⟩

def emptyFetcher : RouteFetcher := fun _ => Except.ok []

def fetchC2 : RouteFetcher := fun _ => Except.ok [⟨"t", some epA⟩]

def fetchC3 : RouteFetcher := fun _ => Except.ok [⟨"t1", some epA⟩]

def fetchC5 : RouteFetcher := fun _ => Except.ok [⟨"x", none⟩, ⟨"t", some epA⟩]

def fetchC5bad : RouteFetcher := fun _ => Except.ok [⟨"x", some epB⟩]

def fetchC6 : RouteFetcher := fun _ => Except.ok [⟨"t1", some epA⟩, ⟨"t2", some epB⟩]

def fetchC7 : RouteFetcher := fun _ => Except.ok [⟨"t3", some epB⟩]

def fetchC8 : RouteFetcher := fun _ => Except.ok [⟨"t", none⟩]

def fetchC10 : RouteFetcher := fun _ => Except.ok [⟨"t1", some epA⟩, ⟨"zz", some epB⟩]

/-! ### The claims -/

/-- Claim C1, counterexample: with a warm cache and an all-hit input the miss
set is empty, yet the call still issues one fetch (with an empty table list);
the claimed "zero fetch calls / return immediately" is refuted. -/
theorem routerC1_counterexample :
    buildMisses [("t1", epA)] ["t1"] = [] ∧
    (route epD emptyFetcher [("t1", epA)] ["t1"] ctxDb).2.1 = [⟨"db", []⟩] := by
  constructor <;> rfl

/-- Claim C1 (amended): when every requested table hits the cache, the source
still issues exactly one fetch, with an empty table list; when that fetch
returns an empty response, the call returns the cached endpoint of every
table. -/
theorem routerC1_amended (default_endpoint : Endpoint) (fetcher : RouteFetcher)
    (cache : Cache) (tables : List String) (ctx : RpcContext) (db : String)
    (hdb : ctx.database = some db)
    (hmiss : buildMisses cache tables = []) :
    (route default_endpoint fetcher cache tables ctx).2.1 = [⟨db, []⟩] ∧
      (fetcher ⟨db, []⟩ = Except.ok [] →
        (route default_endpoint fetcher cache tables ctx).2.2 =
          Except.ok (tables.map fun t => cacheGet cache t)) := by
  have hall : ∀ t ∈ tables, cacheGet cache t ≠ none := by
    intro t ht hnone
    have hmem := (mem_keys_buildMisses cache tables t).mpr ⟨hnone, ht⟩
    rw [hmiss] at hmem
    cases hmem
  have hfill : fillFromCache default_endpoint cache tables =
      tables.map fun t => cacheGet cache t := by
    simp only [fillFromCache]
    apply List.map_congr_left
    intro t ht
    cases hc : cacheGet cache t with
    | none => exact absurd hc (hall t ht)
    | some e => simp
  constructor
  · simp only [route, hdb, hmiss, List.map_nil]
    cases hf : fetcher ⟨db, []⟩ <;> rfl
  · intro hf
    have hf' : fetcher ⟨db, (buildMisses cache tables).map Prod.fst⟩ =
        Except.ok [] := by
      rw [hmiss]
      simpa using hf
    rw [route_ok default_endpoint fetcher cache tables ctx db [] hdb hf']
    rw [processRoutes_nil]
    simp [hfill]

/-- Witness for claim C1 (amended) at a concrete all-hit input. -/
theorem routerC1_amended_witness :
    (route epD emptyFetcher [("t1", epA)] ["t1"] ctxDb).2.1 = [⟨"db", []⟩] ∧
    (route epD emptyFetcher [("t1", epA)] ["t1"] ctxDb).2.2 =
      Except.ok [some epA] := by
  have h := routerC1_amended epD emptyFetcher [("t1", epA)] ["t1"] ctxDb "db"
    rfl rfl
  exact ⟨h.1, by rw [h.2 rfl]; rfl⟩

/-- Claim C2, counterexample: for `tables = ["t", "t"]` with an empty cache
and a fetch resolving `t`, only the last position receives the fetched
endpoint; the first keeps the default, refuting "every position of the
repeated name is filled with that endpoint". -/
theorem routerC2_counterexample :
    (route epD fetchC2 [] ["t", "t"] ctxDb).2.2 =
      Except.ok [some epD, some epA] ∧ epD ≠ epA := by
  constructor
  · rfl
  · decide

/-- Claim C2 (amended): a repeated table name that misses the cache is NOT
tracked per occurrence: the miss map holds one entry per distinct name
(so one fetch entry per distinct name) whose recorded index is the LAST
input position of the name; when the fetch resolves the name, exactly that
recorded position is overwritten with the endpoint and the other positions
keep their cache-probe value, the default endpoint. -/
theorem routerC2_amended (cache : Cache) (tables : List String) (t : String)
    (idx : Nat) (h : mapGet (buildMisses cache tables) t = some idx) :
    ((buildMisses cache tables).map Prod.fst).Nodup ∧
    cacheGet cache t = none ∧ tables.get? idx = some t ∧
    (∀ j, tables.get? j = some t → j ≤ idx) ∧
    ∀ (default_endpoint : Endpoint) (ctx : RpcContext) (db : String)
      (E : Endpoint) (fetcher : RouteFetcher),
      ctx.database = some db →
      fetcher ⟨db, (buildMisses cache tables).map Prod.fst⟩ =
        Except.ok [⟨t, some E⟩] →
      (route default_endpoint fetcher cache tables ctx).2.2 =
        Except.ok
          ((fillFromCache default_endpoint cache tables).set idx (some E)) := by
  obtain ⟨h1, h2, h3⟩ := buildMisses_index_spec cache tables t idx h
  refine ⟨keys_buildMisses_nodup cache tables, h1, h2, h3, ?_⟩
  intro default_endpoint ctx db E fetcher hdb hf
  rw [route_ok default_endpoint fetcher cache tables ctx db _ hdb hf]
  simp only [processRoutes_cons, h, processRoutes_nil]

/-- Witness for claim C2 (amended): the duplicate input `["t", "t"]`; the
recorded index is 1 (the last occurrence) and the fetched endpoint lands
only there. -/
theorem routerC2_amended_witness :
    (["t", "t"].get? 1 = some "t") ∧
    (route epD fetchC2 [] ["t", "t"] ctxDb).2.2 =
      Except.ok [some epD, some epA] := by
  have h := routerC2_amended [] ["t", "t"] "t" 1 rfl
  refine ⟨h.2.2.1, ?_⟩
  rw [h.2.2.2.2 epD ctxDb "db" epA fetchC2 rfl rfl]
  rfl

/-- Claim C4: a context with no database makes the call fail at once with the
invalid-context condition: no fetch request is issued and the cache is
untouched. -/
theorem routerC4 (default_endpoint : Endpoint) (fetcher : RouteFetcher)
    (cache : Cache) (tables : List String) (ctx : RpcContext)
    (h : ctx.database = none) :
    route default_endpoint fetcher cache tables ctx =
      (cache, [], Except.error RouteError.invalidContext) := by
  simp [route, h]

/-- Witness for claim C4 at a concrete database-less context. -/
theorem routerC4_witness :
    route epD emptyFetcher [] ["t1"] ctxNoDb =
      ([], [], Except.error RouteError.invalidContext) :=
  routerC4 epD emptyFetcher [] ["t1"] ctxNoDb rfl

/-- Claim C9: `evict` removes exactly the listed tables from the cache —
a listed table's entry is gone afterwards (listed tables that were absent
are no-ops), and entries of unlisted tables are untouched. -/
theorem routerC9 (cache : Cache) (ts : List String) (t : String) :
    cacheGet (evict cache ts) t = if t ∈ ts then none else cacheGet cache t := by
  induction ts generalizing cache with
  | nil => simp [evict]
  | cons x xs ih =>
    have hstep : evict cache (x :: xs) = evict (cacheRemove cache x) xs := rfl
    rw [hstep, ih]
    by_cases ht : t = x
    · subst ht
      simp [cacheGet_cacheRemove]
    · by_cases hm : t ∈ xs
      · simp [hm, ht]
      · simp [hm, ht, cacheGet_cacheRemove]

/-- Claim C10: when the call fails on an unexpected route entry, the cache
insertion already performed for an earlier response entry persists — the
error exit is not atomic with respect to the cache. -/
theorem routerC10 (default_endpoint : Endpoint) (fetcher : RouteFetcher)
    (cache : Cache) (tables : List String) (ctx : RpcContext) (db : String)
    (t1 tb : String) (E1 E2 : Endpoint) (i1 : Nat) (rest : List RouteEntry)
    (hdb : ctx.database = some db)
    (hf : fetcher ⟨db, (buildMisses cache tables).map Prod.fst⟩ =
      Except.ok (⟨t1, some E1⟩ :: ⟨tb, some E2⟩ :: rest))
    (h1 : mapGet (buildMisses cache tables) t1 = some i1)
    (hb : mapGet (buildMisses cache tables) tb = none) :
    (route default_endpoint fetcher cache tables ctx).2.2 =
      Except.error (RouteError.unexpectedRouteEntry tb) ∧
    cacheGet (route default_endpoint fetcher cache tables ctx).1 t1 = some E1 := by
  rw [route_ok default_endpoint fetcher cache tables ctx db _ hdb hf]
  constructor
  · simp [processRoutes_cons, h1, hb]
  · simp only [processRoutes_cons, h1, hb]
    exact cacheGet_cacheInsert_self cache t1 E1

/-- Witness for claim C10: the second response entry is unrequested, the call
fails, and the first entry's endpoint is in the cache nevertheless. -/
theorem routerC10_witness :
    (route epD fetchC10 [] ["t1"] ctxDb).2.2 =
      Except.error (RouteError.unexpectedRouteEntry "zz") ∧
    cacheGet (route epD fetchC10 [] ["t1"] ctxDb).1 "t1" = some epA :=
  routerC10 epD fetchC10 [] ["t1"] ctxDb "db" "t1" "zz" epA epB 0 []
    rfl rfl rfl rfl

/-- Claim C3: a successful call returns exactly one slot per input table and
every slot is filled (never `none`); positionally, slot `j` carries the
cached endpoint of the table at input position `j`, an endpoint the response
assigned to that table, or the default endpoint. -/
theorem routerC3 (default_endpoint : Endpoint) (fetcher : RouteFetcher)
    (cache : Cache) (tables : List String) (ctx : RpcContext) (db : String)
    (routes : List RouteEntry) (out : List (Option Endpoint))
    (hdb : ctx.database = some db)
    (hf : fetcher ⟨db, (buildMisses cache tables).map Prod.fst⟩ =
      Except.ok routes)
    (h : (route default_endpoint fetcher cache tables ctx).2.2 = Except.ok out) :
    out.length = tables.length ∧ (∀ o ∈ out, o.isSome) ∧
    ∀ j t, tables.get? j = some t →
      ∃ e, out.get? j = some (some e) ∧
        (cacheGet cache t = some e ∨ RouteEntry.mk t (some e) ∈ routes ∨
          e = default_endpoint) := by
  rw [route_ok default_endpoint fetcher cache tables ctx db routes hdb hf] at h
  have h2 : (processRoutes (buildMisses cache tables) routes cache
      (fillFromCache default_endpoint cache tables)).2 = Except.ok out := h
  have hpair := pair_eq_of_snd _ _ h2
  have hspec := processRoutes_ok_spec (buildMisses cache tables) routes cache
    (fillFromCache default_endpoint cache tables) _ out hpair
    (fillFromCache_all_some default_endpoint cache tables)
  rw [fillFromCache_length] at hspec
  refine ⟨hspec.1, hspec.2, ?_⟩
  intro j t hj
  rcases processRoutes_ok_get_or (buildMisses cache tables) j routes cache
      (fillFromCache default_endpoint cache tables) _ out hpair with
    hcase | ⟨e, he, tb, hm, hmem⟩
  · rw [fillFromCache_get default_endpoint cache tables j t hj] at hcase
    cases hc : cacheGet cache t with
    | some e =>
      rw [hc] at hcase
      exact ⟨e, hcase, Or.inl rfl⟩
    | none =>
      rw [hc] at hcase
      exact ⟨default_endpoint, hcase, Or.inr (Or.inr rfl)⟩
  · have hspec2 := buildMisses_index_spec cache tables tb j hm
    have h21 := hspec2.2.1
    rw [hj] at h21
    injection h21 with hv
    subst hv
    exact ⟨e, he, Or.inr (Or.inl hmem)⟩

/-- Witness for claim C3 at a concrete one-miss input. -/
theorem routerC3_witness :
    ([some epA] : List (Option Endpoint)).length = ["t1"].length ∧
    (∀ o ∈ ([some epA] : List (Option Endpoint)), o.isSome) ∧
    ∀ j t, ["t1"].get? j = some t →
      ∃ e, ([some epA] : List (Option Endpoint)).get? j = some (some e) ∧
        (cacheGet [] t = some e ∨
          RouteEntry.mk t (some e) ∈ [RouteEntry.mk "t1" (some epA)] ∨
          e = epD) :=
  routerC3 epD fetchC3 [] ["t1"] ctxDb "db" [⟨"t1", some epA⟩] [some epA]
    rfl rfl rfl

/-- Claim C5, counterexample: the response contains the table "x", never in
the miss set, yet because its entry carries no endpoint the call succeeds
instead of failing with the unexpected-route-entry condition. -/
theorem routerC5_counterexample :
    mapGet (buildMisses [] ["t"]) "x" = none ∧
    (route epD fetchC5 [] ["t"] ctxDb).2.2 = Except.ok [some epA] := by
  constructor <;> rfl

/-- Claim C5 (amended): a response entry that carries an endpoint for a table
outside the miss set makes the call fail with the unexpected-route-entry
condition; entries without an endpoint are skipped even when their table was
never requested. -/
theorem routerC5_amended (default_endpoint : Endpoint) (fetcher : RouteFetcher)
    (cache : Cache) (tables : List String) (ctx : RpcContext) (db : String)
    (routes : List RouteEntry) (r : RouteEntry)
    (hdb : ctx.database = some db)
    (hf : fetcher ⟨db, (buildMisses cache tables).map Prod.fst⟩ =
      Except.ok routes)
    (hr : r ∈ routes) (he : r.endpoint.isSome)
    (hm : mapGet (buildMisses cache tables) r.table = none) :
    ∃ t', mapGet (buildMisses cache tables) t' = none ∧
      (route default_endpoint fetcher cache tables ctx).2.2 =
        Except.error (RouteError.unexpectedRouteEntry t') := by
  obtain ⟨t', ht1, ht2⟩ := processRoutes_error_of_unexpected
    (buildMisses cache tables) routes cache
    (fillFromCache default_endpoint cache tables) r hr he hm
  refine ⟨t', ht1, ?_⟩
  rw [route_ok default_endpoint fetcher cache tables ctx db routes hdb hf]
  exact ht2

/-- Witness for claim C5 (amended): an unrequested entry with an endpoint
fails the call. -/
theorem routerC5_amended_witness :
    ∃ t', mapGet (buildMisses [] ["t"]) t' = none ∧
      (route epD fetchC5bad [] ["t"] ctxDb).2.2 =
        Except.error (RouteError.unexpectedRouteEntry t') :=
  routerC5_amended epD fetchC5bad [] ["t"] ctxDb "db" [⟨"x", some epB⟩]
    ⟨"x", some epB⟩ rfl rfl (List.mem_cons_self _ _) rfl rfl

/-- Claim C6: the unique response entry carrying an endpoint for a missed
table writes that endpoint into the cache (whatever value was there before)
and into the recorded output slot of every successful call. -/
theorem routerC6 (default_endpoint : Endpoint) (fetcher : RouteFetcher)
    (cache : Cache) (tables : List String) (ctx : RpcContext) (db : String)
    (routes : List RouteEntry) (t : String) (E : Endpoint) (idx : Nat)
    (out : List (Option Endpoint))
    (hdb : ctx.database = some db)
    (hf : fetcher ⟨db, (buildMisses cache tables).map Prod.fst⟩ =
      Except.ok routes)
    (hmem : RouteEntry.mk t (some E) ∈ routes)
    (hcount : routes.countP (fun r => decide (r.table = t)) = 1)
    (hidx : mapGet (buildMisses cache tables) t = some idx)
    (hok : (route default_endpoint fetcher cache tables ctx).2.2 =
      Except.ok out) :
    cacheGet (route default_endpoint fetcher cache tables ctx).1 t = some E ∧
      out.get? idx = some (some E) := by
  rw [route_ok default_endpoint fetcher cache tables ctx db routes hdb hf]
    at hok ⊢
  have hok2 : (processRoutes (buildMisses cache tables) routes cache
      (fillFromCache default_endpoint cache tables)).2 = Except.ok out := hok
  have hinj : ∀ t', mapGet (buildMisses cache tables) t' = some idx → t' = t :=
    fun t' ht' => buildMisses_index_inj cache tables t' t idx ht' hidx
  have hlt : idx < (fillFromCache default_endpoint cache tables).length := by
    rw [fillFromCache_length]
    exact (List.get?_eq_some.mp (buildMisses_index_spec cache tables t idx
      hidx).2.1).1
  exact processRoutes_ok_entry (buildMisses cache tables) t E idx hidx hinj
    routes cache (fillFromCache default_endpoint cache tables) _ out
    (pair_eq_of_snd _ _ hok2) hmem hcount hlt

/-- Witness for claim C6: both fetched endpoints land in cache and output. -/
theorem routerC6_witness :
    cacheGet (route epD fetchC6 [] ["t1", "t2"] ctxDb).1 "t2" = some epB ∧
      ([some epA, some epB] : List (Option Endpoint)).get? 1 =
        some (some epB) :=
  routerC6 epD fetchC6 [] ["t1", "t2"] ctxDb "db"
    [⟨"t1", some epA⟩, ⟨"t2", some epB⟩] "t2" epB 1 [some epA, some epB]
    rfl rfl (by simp) (by decide) rfl rfl

/-- Claim C7: with at least one miss, exactly one batched fetch is issued;
its table list is, without duplicates, exactly the distinct names that
missed the cache (hits never included); and every cache-hit position of a
successful output carries its cached endpoint. -/
theorem routerC7 (default_endpoint : Endpoint) (fetcher : RouteFetcher)
    (cache : Cache) (tables : List String) (ctx : RpcContext) (db : String)
    (hdb : ctx.database = some db)
    (_hmiss : buildMisses cache tables ≠ []) :
    (route default_endpoint fetcher cache tables ctx).2.1 =
      [⟨db, (buildMisses cache tables).map Prod.fst⟩] ∧
    ((buildMisses cache tables).map Prod.fst).Nodup ∧
    (∀ t, t ∈ (buildMisses cache tables).map Prod.fst ↔
      (t ∈ tables ∧ cacheGet cache t = none)) ∧
    ∀ (out : List (Option Endpoint)) (j : Nat) (t : String) (e : Endpoint),
      (route default_endpoint fetcher cache tables ctx).2.2 = Except.ok out →
      tables.get? j = some t → cacheGet cache t = some e →
      out.get? j = some (some e) := by
  refine ⟨?_, keys_buildMisses_nodup cache tables, ?_, ?_⟩
  · cases hfet : fetcher ⟨db, (buildMisses cache tables).map Prod.fst⟩ with
    | error err =>
      rw [route_error_fetch default_endpoint fetcher cache tables ctx db err
        hdb hfet]
    | ok routes =>
      rw [route_ok default_endpoint fetcher cache tables ctx db routes
        hdb hfet]
  · intro t
    rw [mem_keys_buildMisses]
    exact and_comm
  · intro out j t e hok hj he
    cases hfet : fetcher ⟨db, (buildMisses cache tables).map Prod.fst⟩ with
    | error err =>
      rw [route_error_fetch default_endpoint fetcher cache tables ctx db err
        hdb hfet] at hok
      simp at hok
    | ok routes =>
      rw [route_ok default_endpoint fetcher cache tables ctx db routes
        hdb hfet] at hok
      have hok2 : (processRoutes (buildMisses cache tables) routes cache
          (fillFromCache default_endpoint cache tables)).2 =
            Except.ok out := hok
      have hget := processRoutes_ok_get (buildMisses cache tables) j routes
        cache (fillFromCache default_endpoint cache tables) _ out
        (pair_eq_of_snd _ _ hok2) ?_
      · rw [hget, fillFromCache_get default_endpoint cache tables j t hj, he]
      · intro r hr _ hmr
        have hspec := buildMisses_index_spec cache tables r.table j hmr
        have h21 := hspec.2.1
        rw [hj] at h21
        injection h21 with hv
        rw [← hv] at hspec
        rw [hspec.1] at he
        cases he

/-- Witness for claim C7 at the spec's partial-hit scenario. -/
theorem routerC7_witness :
    (route epD fetchC7 [("t1", epA)] ["t1", "t3"] ctxDb).2.1 =
      [⟨"db", ["t3"]⟩] ∧
    ([some epA, some epB] : List (Option Endpoint)).get? 0 =
      some (some epA) := by
  have h := routerC7 epD fetchC7 [("t1", epA)] ["t1", "t3"] ctxDb "db"
    rfl (by decide)
  exact ⟨h.1, h.2.2.2 [some epA, some epB] 0 "t1" epA rfl rfl rfl⟩

/-- Claim C8: when every response entry for a table carries no endpoint, the
table's cache entry is untouched by the call, and, when the table missed the
cache, each of its output positions in a successful result carries the
default endpoint. -/
theorem routerC8 (default_endpoint : Endpoint) (fetcher : RouteFetcher)
    (cache : Cache) (tables : List String) (ctx : RpcContext) (db : String)
    (routes : List RouteEntry) (t : String)
    (hdb : ctx.database = some db)
    (hf : fetcher ⟨db, (buildMisses cache tables).map Prod.fst⟩ =
      Except.ok routes)
    (hnone : ∀ r ∈ routes, r.table = t → r.endpoint = none) :
    cacheGet (route default_endpoint fetcher cache tables ctx).1 t =
      cacheGet cache t ∧
    ∀ (out : List (Option Endpoint)) (j : Nat),
      (route default_endpoint fetcher cache tables ctx).2.2 = Except.ok out →
      cacheGet cache t = none → tables.get? j = some t →
      out.get? j = some (some default_endpoint) := by
  constructor
  · rw [route_ok default_endpoint fetcher cache tables ctx db routes hdb hf]
    exact processRoutes_cacheGet_frame (buildMisses cache tables) t routes
      cache (fillFromCache default_endpoint cache tables) hnone
  · intro out j hok hmisst hj
    rw [route_ok default_endpoint fetcher cache tables ctx db routes hdb hf]
      at hok
    have hok2 : (processRoutes (buildMisses cache tables) routes cache
        (fillFromCache default_endpoint cache tables)).2 =
          Except.ok out := hok
    have hget := processRoutes_ok_get (buildMisses cache tables) j routes
      cache (fillFromCache default_endpoint cache tables) _ out
      (pair_eq_of_snd _ _ hok2) ?_
    · rw [hget, fillFromCache_get default_endpoint cache tables j t hj,
        hmisst]
    · intro r hr hs hmr
      have hspec := buildMisses_index_spec cache tables r.table j hmr
      have h21 := hspec.2.1
      rw [hj] at h21
      injection h21 with hv
      have hre := hnone r hr hv.symm
      rw [hre] at hs
      simp at hs

/-- Witness for claim C8: an endpoint-less entry leaves the cache empty and
the slot at the default. -/
theorem routerC8_witness :
    cacheGet (route epD fetchC8 [] ["t"] ctxDb).1 "t" = cacheGet [] "t" ∧
      ([some epD] : List (Option Endpoint)).get? 0 = some (some epD) := by
  have h := routerC8 epD fetchC8 [] ["t"] ctxDb "db" [⟨"t", none⟩] "t" rfl rfl
    (by intro r hr _; simp at hr; rw [hr])
  exact ⟨h.1, h.2 [some epD] 0 rfl rfl rfl⟩

end CeresRouter
